import Mathlib

/-!
Verification of the Run Condition subsystem of the planck scheduler
(repository `tacheometry/planck`).

The repository ships a type-declaration file
(`src/planck/src/conditions.d.ts`) and a design document
(`docs/design/conditions.md`); the Luau implementation of the condition
combinators is not part of the repository snapshot.  The declarations and
the design document pin down the observable behaviour, and the definitions
below embed that behaviour as explicit state machines: a condition's raw
return value is a Lua value, a stateful condition is a state record
together with a pure step function, and the scheduler-facing operations
(`canRun`, attach/detach bookkeeping, per-tick memoization) are pure
functions over those records.
-/

namespace Planck

/-- A Lua runtime value as far as the condition subsystem observes it:
`nil` (also the result of a `void` return), a boolean, or any other
payload (numbers, strings, tables, ... — abstracted as a tagged index,
since only the distinction from the explicit `false` sentinel matters). -/
inductive LuaVal where
  | nil : LuaVal
  | boolean : Bool → LuaVal
  | payload : Nat → LuaVal
deriving DecidableEq, Repr

/-- Modelled from the spec: the truthiness rule of the Run Condition
evaluator (missing scheduler core).  Per `docs/design/conditions.md`
lines 21-23, only an explicit `false` return blocks the unit; `void`/`nil`
and every other value count as permit. -/
def permits : LuaVal → Bool
  | LuaVal.boolean false => false
  | _ => true

/-- The opaque world context handed to every condition by the scheduler. -/
abbrev Ctx := Int

/-- A pure (per-evaluation) view of a condition: a function from the world
context to a raw Lua value, as in the `Condition` type of
`conditions.d.ts`. -/
abbrev Condition := Ctx → LuaVal

/-- Modelled from the spec: the `canRun(unit, worldContext, currentTick)`
contract of the ConditionEvaluator (missing scheduler core).  The unit's
attached conditions are each invoked with the context; the unit runs only
if all of them permit, and with zero attached conditions it always runs. -/
def canRun (conds : List Condition) (ctx : Ctx) (_tick : Nat) : Bool :=
  conds.all fun c => permits (c ctx)

/-- Modelled from the spec: the `isNot` combinator (declared at
`conditions.d.ts` lines 68-72, implementation missing).  It wraps a
condition and inverts the permit/block verdict of the wrapped condition's
result, returning the inverted verdict as an explicit boolean. -/
def isNot (fn : Condition) : Condition :=
  fun ctx => LuaVal.boolean (!(permits (fn ctx)))

/-- The error taxonomy of the condition subsystem (spec section 7). -/
inductive PlanckError where
  | invalidConfiguration : PlanckError
  | subscriptionFailure : PlanckError
deriving DecidableEq, Repr

/-- Internal state of a `timePassed` condition: the configured threshold
and the time accumulated since the last permit, both real-valued
(modelled as rationals). -/
structure TimePassedState where
  thresholdSeconds : ℚ
  accumulatedSeconds : ℚ
deriving DecidableEq, Repr

/-- Modelled from the spec: construction of the `timePassed` condition
(declared at `conditions.d.ts` line 14, implementation missing).  A
non-positive threshold is a configuration error raised at construction
time; otherwise the condition starts with an empty accumulator. -/
def timePassed (time : ℚ) : Except PlanckError TimePassedState :=
  if time ≤ 0 then Except.error PlanckError.invalidConfiguration
  else Except.ok { thresholdSeconds := time, accumulatedSeconds := 0 }

/-- Modelled from the spec: one per-tick evaluation of a `timePassed`
condition.  The tick's elapsed-time delta is added to the accumulator;
when the accumulator reaches the threshold the condition permits and the
accumulator is reduced by the threshold (the remainder is carried
forward), otherwise it blocks. -/
def timePassedEval (s : TimePassedState) (delta : ℚ) : LuaVal × TimePassedState :=
  let acc := s.accumulatedSeconds + delta
  if s.thresholdSeconds ≤ acc then
    (LuaVal.boolean true,
      { thresholdSeconds := s.thresholdSeconds,
        accumulatedSeconds := acc - s.thresholdSeconds })
  else
    (LuaVal.boolean false,
      { thresholdSeconds := s.thresholdSeconds, accumulatedSeconds := acc })

/-- Feeding a `timePassed` condition a sequence of tick deltas, collecting
the permit/block verdict of every tick and the final state. -/
def timePassedRun (s : TimePassedState) : List ℚ → List Bool × TimePassedState
  | [] => ([], s)
  | d :: ds =>
    let r := timePassedEval s d
    let rest := timePassedRun r.2 ds
    (permits r.1 :: rest.1, rest.2)

/-- Modelled from the spec: one evaluation of a `runOnce` condition
(declared at `conditions.d.ts` lines 16-17, implementation missing).  The
state is the `hasFired` latch: the evaluation permits exactly when the
latch is still unset, and always leaves the latch set. -/
def runOnceEval (hasFired : Bool) : LuaVal × Bool :=
  (LuaVal.boolean (!hasFired), true)

/-- The `hasFired` latch of a single `runOnce()` condition after `k`
evaluations; the condition is constructed with the latch unset. -/
def runOnceStateAfter : Nat → Bool
  | 0 => false
  | k + 1 => (runOnceEval (runOnceStateAfter k)).2

/-- Internal state of an `onEvent` condition: the ordered buffer of event
payloads captured since the last drain, and whether the subscription to
the external source is still connected.  Payloads are abstracted by a
type parameter. -/
structure EventState (α : Type) where
  buffer : List α
  connected : Bool
deriving DecidableEq, Repr

/-- Modelled from the spec: the state of an `onEvent` condition right
after construction — the subscription is live and no occurrence has been
buffered yet. -/
def mkEventState (α : Type) : EventState α :=
  { buffer := [], connected := true }

/-- Modelled from the spec: delivery of one occurrence from the external
event source.  While connected, the payload is appended to the buffer (so
the buffer holds occurrences in arrival order); after disconnection no
further buffer writes occur. -/
def occur (s : EventState α) (p : α) : EventState α :=
  if s.connected then { buffer := s.buffer ++ [p], connected := s.connected }
  else s

/-- Delivery of a whole sequence of occurrences, in order. -/
def occurAll (s : EventState α) (ps : List α) : EventState α :=
  ps.foldl occur s

/-- Modelled from the spec: the `hasNewEvent` condition produced by
`onEvent` — it permits exactly when the buffer is non-empty and does not
modify the buffer. -/
def hasNewEvent (s : EventState α) : LuaVal :=
  LuaVal.boolean (!s.buffer.isEmpty)

/-- Modelled from the spec: the `collectEvents` drain produced by
`onEvent` — it returns every buffered entry in arrival order and clears
the buffer. -/
def collectEvents (s : EventState α) : List α × EventState α :=
  (s.buffer, { buffer := [], connected := s.connected })

/-- Modelled from the spec: the zero-argument disconnect function obtained
through `getDisconnectFn` — it unsubscribes from the external source. -/
def disconnect (s : EventState α) : EventState α :=
  { buffer := s.buffer, connected := false }

/-- The components of the `LuaTuple` return type that `conditions.d.ts`
(lines 34-66) declares for every overload of `onEvent`: a two-element
tuple `[hasNewEvent, collectEvents]`. -/
def onEventDeclaredComponents : List String :=
  ["hasNewEvent", "collectEvents"]

/-- The components of the `onEvent` return value according to the
repository's own design document (`docs/design/conditions.md` lines
214-228, both the Luau and the TypeScript examples destructure three
values). -/
def onEventDocumentedComponents : List String :=
  ["hasNewEvent", "collectEvents", "getDisconnectFn"]

/-- A ConditionRegistry entry for one condition instance (spec section 3):
the set of schedulable units referencing it (unit identifiers, each
present once), the condition's internal state, whether the entry has been
destroyed, and how many times its event subscription has been released. -/
structure RegEntry (σ : Type) where
  referencingUnits : List Nat
  state : σ
  destroyed : Bool
  releases : Nat
deriving DecidableEq, Repr

/-- Modelled from the spec: `detachAllForUnit`, invoked when a unit is
removed from the scheduler.  The unit's reference is dropped; when the
last reference disappears the entry is destroyed and its event
subscription (if any) is released, otherwise the condition's state is
left untouched. -/
def detachAllForUnit (u : Nat) (e : RegEntry σ) : RegEntry σ :=
  if u ∈ e.referencingUnits then
    let refs := e.referencingUnits.filter (fun x => x ≠ u)
    if refs.isEmpty then
      { referencingUnits := [], state := e.state, destroyed := true,
        releases := e.releases + 1 }
    else
      { referencingUnits := refs, state := e.state, destroyed := e.destroyed,
        releases := e.releases }
  else e

/-- A stateful condition wrapped with the evaluator's per-tick
memoization (spec section 4.1): the condition's own state, its
state-advancing step function, and the cached verdict of the tick it was
last advanced on. -/
structure MemoCond (σ : Type) where
  state : σ
  step : σ → LuaVal × σ
  cache : Option (Nat × LuaVal)

/-- Modelled from the spec: one query of a memoized condition by some
referencing unit during tick `tick`.  If the condition was already
advanced this tick the cached verdict is returned and the state is left
alone; otherwise the state-advancing step runs once and its verdict is
cached for the rest of the tick. -/
def queryMemo (tick : Nat) (m : MemoCond σ) : LuaVal × MemoCond σ :=
  match m.cache with
  | some (t, v) =>
    if t = tick then (v, m)
    else
      let r := m.step m.state
      (r.1, { state := r.2, step := m.step, cache := some (tick, r.1) })
  | none =>
    let r := m.step m.state
    (r.1, { state := r.2, step := m.step, cache := some (tick, r.1) })

/-- The memoized condition after `n` further queries in tick `tick`. -/
def queryRepeat (tick : Nat) (m : MemoCond σ) : Nat → MemoCond σ
  | 0 => m
  | n + 1 => (queryMemo tick (queryRepeat tick m n)).2

/-- A raw condition result permits exactly when it is not the explicit
`false` sentinel. -/
theorem permits_eq_true_iff (v : LuaVal) :
    permits v = true ↔ v ≠ LuaVal.boolean false := by
  cases v with
  | nil => simp [permits]
  | boolean b => cases b <;> simp [permits]
  | payload n => simp [permits]

/-- Delivering occurrences to a connected `onEvent` state appends them to
the buffer in arrival order and keeps the subscription connected. -/
theorem occurAll_buffer (ps : List α) (s : EventState α)
    (hc : s.connected = true) :
    (occurAll s ps).buffer = s.buffer ++ ps ∧ (occurAll s ps).connected = true := by
  induction ps generalizing s with
  | nil => simp [occurAll, hc]
  | cons p ps ih =>
    have hstep : occur s p = { buffer := s.buffer ++ [p], connected := s.connected } := by
      simp [occur, hc]
    have := ih { buffer := s.buffer ++ [p], connected := s.connected } (by simpa using hc)
    simp only [occurAll, List.foldl_cons] at *
    rw [hstep]
    simpa using this

/-- On an explicit boolean result the verdict is the boolean itself. -/
theorem permits_boolean (b : Bool) : permits (LuaVal.boolean b) = b := by
  cases b <;> rfl

/-- After a query at tick `tick`, the cache holds that tick's verdict. -/
theorem queryMemo_cache (tick : Nat) (m : MemoCond σ) :
    (queryMemo tick m).2.cache = some (tick, (queryMemo tick m).1) := by
  unfold queryMemo
  match h : m.cache with
  | none => simp
  | some (t, v) =>
    by_cases ht : t = tick
    · subst ht; simp [h]
    · simp [h, ht]

/-- A query at a tick whose verdict is already cached returns the cached
verdict and leaves the memoized condition untouched. -/
theorem queryMemo_cached (tick : Nat) (m : MemoCond σ) (v : LuaVal)
    (h : m.cache = some (tick, v)) : queryMemo tick m = (v, m) := by
  unfold queryMemo
  rw [h]
  simp

/-- Claim C1: `canRun` with zero attached conditions always permits, and
in general returns `true` exactly when no attached condition evaluates to
the explicit `false` sentinel on the given context — a `void`/`nil` or
any non-`false` result counts as permit, and a single explicit `false`
vetoes execution. -/
theorem canRun_iff_no_explicit_false (conds : List Condition) (ctx : Ctx) (tick : Nat) :
    canRun [] ctx tick = true
    ∧ (canRun conds ctx tick = true ↔ ∀ c ∈ conds, c ctx ≠ LuaVal.boolean false) := by
  refine ⟨rfl, ?_⟩
  simp [canRun, permits_eq_true_iff]

/-- Claim C3: each tick of `timePassed(T)` permits exactly when the
accumulated time (previous accumulator plus this tick's delta) reaches
`T`, on a permit the accumulator is reduced by `T` with the remainder
carried forward, and in particular `timePassed(10)` fed deltas
`[4, 4, 4]` blocks twice, permits on the third tick, and leaves the
accumulator at `2`. -/
theorem timePassed_accumulate_carry (T acc d : ℚ) (_hT : 0 < T) (_hd : 0 ≤ d) :
    ((permits (timePassedEval ⟨T, acc⟩ d).1 = true ↔ T ≤ acc + d)
      ∧ (timePassedEval ⟨T, acc⟩ d).2.accumulatedSeconds =
          (if T ≤ acc + d then acc + d - T else acc + d))
    ∧ timePassedRun ⟨10, 0⟩ [4, 4, 4] = ([false, false, true], ⟨10, 2⟩) := by
  refine ⟨⟨?_, ?_⟩, ?_⟩
  · by_cases h : T ≤ acc + d <;> simp [timePassedEval, h, permits]
  · by_cases h : T ≤ acc + d <;> simp [timePassedEval, h]
  · norm_num [timePassedRun, timePassedEval, permits]

/-- Witness for claim C3 at threshold 10, empty accumulator and delta 4. -/
theorem timePassed_accumulate_carry_witness :
    ((permits (timePassedEval ⟨10, 0⟩ 4).1 = true ↔ (10 : ℚ) ≤ 0 + 4)
      ∧ (timePassedEval ⟨10, 0⟩ 4).2.accumulatedSeconds =
          (if (10 : ℚ) ≤ 0 + 4 then 0 + 4 - 10 else 0 + 4))
    ∧ timePassedRun ⟨10, 0⟩ [4, 4, 4] = ([false, false, true], ⟨10, 2⟩) :=
  timePassed_accumulate_carry 10 0 4 (by norm_num) (by norm_num)

/-- Claim C4: a `runOnce()` condition permits on its very first
evaluation and blocks on every later one, and after any evaluation the
`hasFired` latch is set with no operation to reset it. -/
theorem runOnce_single_fire (k : Nat) :
    (permits (runOnceEval (runOnceStateAfter k)).1 = true ↔ k = 0)
    ∧ runOnceStateAfter (k + 1) = true := by
  cases k with
  | zero => simp [runOnceStateAfter, runOnceEval, permits]
  | succ n => simp [runOnceStateAfter, runOnceEval, permits]

/-- Claim C5: evaluating `isNot(C)` on a context yields exactly the
opposite permit/block verdict to evaluating `C` on the same context,
where the verdict of `C` is taken by the truthiness rule from its raw
result. -/
theorem isNot_inverts_verdict (fn : Condition) (ctx : Ctx) :
    permits (isNot fn ctx) = !(permits (fn ctx)) := by
  simp [isNot, permits_boolean]

/-- Claim C6: an `onEvent` condition starts with `hasNewEvent` blocking,
a single occurrence (and any non-empty batch of occurrences) makes it
permit, `collectEvents` returns everything buffered since the last drain
in arrival order and empties the buffer, and right after a drain
`hasNewEvent` blocks again. -/
theorem onEvent_buffer_drain (α : Type) (p : α) (ps : List α) (s : EventState α)
    (hps : ps ≠ []) :
    permits (hasNewEvent (mkEventState α)) = false
    ∧ permits (hasNewEvent (occur (mkEventState α) p)) = true
    ∧ permits (hasNewEvent (occurAll (mkEventState α) ps)) = true
    ∧ (collectEvents (occurAll (mkEventState α) ps)).1 = ps
    ∧ (collectEvents s).2.buffer = []
    ∧ permits (hasNewEvent (collectEvents s).2) = false := by
  obtain ⟨hb, hc⟩ := occurAll_buffer ps (mkEventState α) rfl
  have hbuf : (occurAll (mkEventState α) ps).buffer = ps := by
    simpa [mkEventState] using hb
  refine ⟨rfl, ?_, ?_, ?_, rfl, rfl⟩
  · simp [occur, mkEventState, hasNewEvent, permits]
  · simp [hasNewEvent, hbuf, permits, hps]
  · simp [collectEvents, hbuf]

/-- Witness for claim C6: payload 5, occurrence batch `[3, 1, 2]`, and a
drained state obtained from a buffer holding `7`. -/
theorem onEvent_buffer_drain_witness :
    permits (hasNewEvent (mkEventState Nat)) = false
    ∧ permits (hasNewEvent (occur (mkEventState Nat) 5)) = true
    ∧ permits (hasNewEvent (occurAll (mkEventState Nat) [3, 1, 2])) = true
    ∧ (collectEvents (occurAll (mkEventState Nat) [3, 1, 2])).1 = [3, 1, 2]
    ∧ (collectEvents ⟨[7], true⟩).2.buffer = ([] : List Nat)
    ∧ permits (hasNewEvent (collectEvents (⟨[7], true⟩ : EventState Nat)).2) = false :=
  onEvent_buffer_drain Nat 5 [3, 1, 2] ⟨[7], true⟩ (by decide)

/-- Claim C7: constructing `timePassed` with a non-positive threshold
fails at construction time with an InvalidConfiguration error, and a
positive threshold yields the condition with an empty accumulator. -/
theorem timePassed_nonpositive_errors (t : ℚ) :
    (t ≤ 0 → timePassed t = Except.error PlanckError.invalidConfiguration)
    ∧ (0 < t → timePassed t = Except.ok ⟨t, 0⟩) := by
  constructor
  · intro h
    simp [timePassed, h]
  · intro h
    unfold timePassed
    rw [if_neg (not_le.mpr h)]

/-- Witness for claim C7 at thresholds `-1` and `5`. -/
theorem timePassed_nonpositive_errors_witness :
    timePassed (-1) = Except.error PlanckError.invalidConfiguration
    ∧ timePassed 5 = Except.ok ⟨5, 0⟩ :=
  ⟨(timePassed_nonpositive_errors (-1)).1 (by norm_num),
   (timePassed_nonpositive_errors 5).2 (by norm_num)⟩

/-- Claim C8: for a condition registered to units `A` and `B`, detaching
`A` leaves the entry alive with its state preserved and `B` still
referencing it; detaching `B` afterwards destroys the entry and releases
the event subscription exactly once. -/
theorem shared_condition_lifecycle (σ : Type) (st : σ) (A B : Nat) (hAB : A ≠ B) :
    detachAllForUnit A ⟨[A, B], st, false, 0⟩ = (⟨[B], st, false, 0⟩ : RegEntry σ)
    ∧ detachAllForUnit B (detachAllForUnit A ⟨[A, B], st, false, 0⟩)
        = (⟨[], st, true, 1⟩ : RegEntry σ) := by
  have h1 : detachAllForUnit A ⟨[A, B], st, false, 0⟩ = (⟨[B], st, false, 0⟩ : RegEntry σ) := by
    simp [detachAllForUnit, List.filter, Ne.symm hAB]
  refine ⟨h1, ?_⟩
  rw [h1]
  simp [detachAllForUnit, List.filter]

/-- Witness for claim C8 with units 0 and 1 and state `7`. -/
theorem shared_condition_lifecycle_witness :
    detachAllForUnit 0 ⟨[0, 1], 7, false, 0⟩ = (⟨[1], 7, false, 0⟩ : RegEntry Nat)
    ∧ detachAllForUnit 1 (detachAllForUnit 0 ⟨[0, 1], 7, false, 0⟩)
        = (⟨[], 7, true, 1⟩ : RegEntry Nat) :=
  shared_condition_lifecycle Nat 7 0 1 (by decide)

/-- Claim C9: once a memoized condition has been queried in a tick, every
further query in the same tick returns the cached verdict and leaves the
state untouched, so the state-advancing step runs at most once per tick
and all referencing units observe the identical verdict. -/
theorem memo_at_most_once_per_tick (σ : Type) (m : MemoCond σ) (tick : Nat) :
    queryMemo tick (queryMemo tick m).2 = ((queryMemo tick m).1, (queryMemo tick m).2)
    ∧ ∀ n : Nat, queryRepeat tick m (n + 1) = (queryMemo tick m).2 := by
  have hidem :
      queryMemo tick (queryMemo tick m).2 = ((queryMemo tick m).1, (queryMemo tick m).2) :=
    queryMemo_cached tick (queryMemo tick m).2 (queryMemo tick m).1 (queryMemo_cache tick m)
  refine ⟨hidem, ?_⟩
  intro n
  induction n with
  | zero => rfl
  | succ k ih =>
    have hstep : queryRepeat tick m (k + 1 + 1) = (queryMemo tick (queryRepeat tick m (k + 1))).2 :=
      rfl
    rw [hstep, ih, hidem]

/-- Claim C2 counterevidence: the declaration file types every `onEvent`
overload as a two-element tuple `[hasNewEvent, collectEvents]`, omitting
the `getDisconnectFn` artifact that the repository's own design document
destructures as a third return value. -/
theorem onEvent_declared_two_components :
    onEventDeclaredComponents.length = 2
    ∧ "getDisconnectFn" ∉ onEventDeclaredComponents
    ∧ onEventDocumentedComponents.length = 3
    ∧ "getDisconnectFn" ∈ onEventDocumentedComponents := by
  decide

/-- Claim C10: the disconnect function of an `onEvent` condition is
idempotent — a second call is a no-op and the state after two calls
equals the state after one call. -/
theorem disconnect_idempotent (α : Type) (s : EventState α) :
    disconnect (disconnect s) = disconnect s := rfl

end Planck
